import Mathlib

/-!
Verification of the rule versioning and schema-migration subsystem of the
detection-rules repository.  The Python sources are shallowly embedded:
dictionaries become association lists, file reads/writes become explicit
parameters and result fields, and the in-place mutation of rules and of the
version-lock dictionary becomes explicit state passing through folds.
-/

set_option maxHeartbeats 1000000

namespace DetectionRules

/-- Lookup in an association list standing in for a Python `dict` keyed by
strings: the first binding of the key wins (keys are unique in practice). -/
def dlookup {α : Type} : List (String × α) → String → Option α
  | [], _ => none
  | (k, v) :: rest, key => if k = key then some v else dlookup rest key

/-- Assignment `d[k] = v` on a Python `dict` modelled on association lists:
an existing binding is replaced in place (its position is kept), a fresh key
is appended at the end, matching CPython insertion-order semantics. -/
def dinsert {α : Type} : List (String × α) → String → α → List (String × α)
  | [], key, val => [(key, val)]
  | (k, v) :: rest, key, val =>
    if k = key then (key, val) :: rest else (k, v) :: dinsert rest key val

/-- One pending local changelog note of a rule; the Python code only ever
inspects the `message` field of these dictionaries
(`packaging.py` line 214: `c['message']`). -/
structure ChangeNote where
  message : String
deriving DecidableEq, Repr

/-- The slice of a `Rule` object (rule.py, an external collaborator of the
embedded core) that the embedded functions read or write: identity
(`rule_id`, `name`, `path`), the opaque meaning-bearing content, the
`contents['version']` slot, metadata (`maturity`, the local pending
`changelog`, `minimum_kibana_version`), and the fields consulted by the
rule loader's duplicate-query check. -/
structure Rule where
  id : String
  name : String
  path : String
  rule_type : String
  content : String
  version : Option Nat
  maturity : String
  changelog : Option (List ChangeNote)
  minimum_kibana_version : String
  parsed_query : Option String
  threshold_field : Option String
  threshold_value : Option String
deriving DecidableEq, Repr

/-- Modelled from the spec: `rule.get_hash()` (rule.py is not part of the
embedded sources) is a deterministic digest over the rule's meaning-bearing
fields, excluding the volatile `version` and changelog bookkeeping, so it is
a function of the opaque `content` field alone. -/
def Rule.get_hash (r : Rule) : String := r.content

/-- Modelled from the spec: `rule.get_version()` (rule.py is not part of the
embedded sources) returns the rule's current version number. -/
def Rule.get_version (r : Rule) : Nat := r.version.getD 1

/-- Modelled from the spec: `rule.append_changelog_entry(note)` (rule.py is
not part of the embedded sources) appends a pending note to the rule's local
metadata changelog, creating the list when absent. -/
def Rule.append_changelog_entry (r : Rule) (message : String) : Rule :=
  { r with changelog := some (r.changelog.getD [] ++ [{ message := message }]) }

/-- An entry of the version.lock ledger:
`{rule_name, version, sha256}` (`packaging.py` line 74). -/
structure LockEntry where
  version : Nat
  sha256 : String
  rule_name : String
deriving DecidableEq, Repr

/-- An entry of the deprecated_rules registry:
`{rule_name, deprecation_date, stack_version}` (`packaging.py` lines 104-108). -/
structure DeprecationEntry where
  rule_name : String
  deprecation_date : String
  stack_version : String
deriving DecidableEq, Repr

/-- Stack version of the newest registered schema,
`CurrentSchema.STACK_VERSION` (schemas/__init__.py lines 39-41). -/
def CurrentStackVersion : String := "7.13"

/-- State threaded through the per-rule loop of `manage_versions`
(`packaging.py` lines 71-91): the rules with their versions written back,
the (mutated in place) version-lock dictionary, the accumulating
`new_rules` dictionary, and the `changed_rules` list. -/
structure MVState where
  rules : List Rule
  lock : List (String × LockEntry)
  new_rules : List (String × LockEntry)
  changed_rules : List String
deriving DecidableEq, Repr

/-- Body of the per-rule loop of `manage_versions` (`packaging.py` lines
71-91).  A rule absent from the lock gets `new_rules[id] = {rule_name,
version: 1, sha256}` and `contents['version'] = 1`.  A present rule whose
hash differs from the locked sha256 gets `contents['version'] = version+1`;
the lock entry's `version` is bumped unless `exclude_version_update`, its
`sha256` and `rule_name` are updated unconditionally, and the id is appended
to `changed_rules`.  Otherwise `contents['version']` is set to the locked
version and nothing else changes. -/
def mvStep (exclude_version_update : Bool) (st : MVState) (rule : Rule) : MVState :=
  match dlookup st.lock rule.id with
  | none =>
    { st with
      new_rules := dinsert st.new_rules rule.id
        { rule_name := rule.name, version := 1, sha256 := rule.get_hash },
      rules := st.rules ++ [{ rule with version := some 1 }] }
  | some version_lock_info =>
    let version := version_lock_info.version
    let rule_hash := rule.get_hash
    if rule_hash ≠ version_lock_info.sha256 then
      { st with
        rules := st.rules ++ [{ rule with version := some (version + 1) }],
        lock := dinsert st.lock rule.id
          { version := if exclude_version_update then version_lock_info.version
                       else version + 1,
            sha256 := rule_hash, rule_name := rule.name },
        changed_rules := st.changed_rules ++ [rule.id] }
    else
      { st with rules := st.rules ++ [{ rule with version := some version }] }

/-- Body of the deprecation loop of `manage_versions` (`packaging.py` lines
102-109): a deprecated rule not yet in the registry gets an entry
`{rule_name, deprecation_date: today, stack_version}` and is appended to
`newly_deprecated`; a rule already present is skipped. -/
def depStep (today : String) (st : List (String × DeprecationEntry) × List String)
    (rule : Rule) : List (String × DeprecationEntry) × List String :=
  match dlookup st.1 rule.id with
  | none =>
    (dinsert st.1 rule.id
       { rule_name := rule.name, deprecation_date := today,
         stack_version := CurrentStackVersion },
     st.2 ++ [rule.id])
  | some _ => st

/-- Result of `manage_versions`: the rules with versions written back, the
in-memory version-lock dictionary, the `new_rules` dictionary, and the three
classification collections returned to the caller (`packaging.py` line 148
returns `changed_rules, list(new_rules), newly_deprecated`). -/
structure ManageVersionsResult where
  rules : List Rule
  lock : List (String × LockEntry)
  new_rules : List (String × LockEntry)
  changed_rules : List String
  deprecations : List (String × DeprecationEntry)
  newly_deprecated : List String
deriving DecidableEq, Repr

/-- Embedding of `manage_versions` (`packaging.py` lines 63-148) without the
optional file writes: `current_versions` is the loaded version.lock content
(`load_versions`, lines 57-60), `deprecations_file` the content of
deprecated_rules.json (loaded at line 98 only when `deprecated_rules` is
non-empty), and `today` the ambient `str(datetime.date.today())` of line
100.  The per-rule loop mutates rules and the lock dictionary in memory;
the `save_changes` branch (lines 116-134) only serializes the states
computed here and is therefore not part of the embedding. -/
def manage_versions (rules : List Rule) (deprecated_rules : List Rule)
    (current_versions : List (String × LockEntry))
    (deprecations_file : List (String × DeprecationEntry)) (today : String)
    (exclude_version_update : Bool) : ManageVersionsResult :=
  let st := rules.foldl (mvStep exclude_version_update)
    { rules := [], lock := current_versions, new_rules := [], changed_rules := [] }
  let dep :=
    if deprecated_rules.isEmpty then ([], [])
    else deprecated_rules.foldl (depStep today) (deprecations_file, [])
  { rules := st.rules, lock := st.lock, new_rules := st.new_rules,
    changed_rules := st.changed_rules, deprecations := dep.1,
    newly_deprecated := dep.2 }

/-- Embedding of `versions_locked` (`packaging.py` lines 151-161): every
rule must be present in the loaded version.lock with a matching sha256;
a missing entry or a differing hash yields `false`. -/
def versions_locked (versions : List (String × LockEntry)) (rules : List Rule) : Bool :=
  rules.all fun rule =>
    match dlookup versions rule.id with
    | none => false
    | some entry => rule.get_hash == entry.sha256

/-- The sentinel no-op markers filtered out of a rule's local changelog by
`ChangelogMgmt.update_and_lock` (`packaging.py` line 213). -/
def default_changes : List String := ["_version_locked_", "_rule_created_"]

/-- The substantive (non-sentinel) notes of a local rule changelog
(`packaging.py` line 214). -/
def substantive_changes (rule_changelog : List ChangeNote) : List ChangeNote :=
  rule_changelog.filter fun c => !(default_changes.contains c.message)

/-- An entry appended to the global rules-changelog:
`{changes, minimum_kibana_version, rule_version}` (`packaging.py`
lines 218-222). -/
structure ChangelogEntry where
  changes : List ChangeNote
  minimum_kibana_version : String
  rule_version : Nat
deriving DecidableEq, Repr

/-- State threaded through the per-rule loop of
`ChangelogMgmt.update_and_lock` (`packaging.py` lines 210-237): the rules
with local changelogs drained or restored, the ids of rules whose file was
saved by `rule.save(as_rule=True)`, and the in-memory global changelog. -/
structure UALState where
  rules : List Rule
  saved : List String
  changelog : List (String × List ChangelogEntry)
deriving DecidableEq, Repr

/-- Appending to `changelog.setdefault(rule.id, [])` (`packaging.py` lines
217-224): the rule's slot is created empty at the end of the dictionary when
absent, then the new entry is appended to it. -/
def appendGlobalEntry (changelog : List (String × List ChangelogEntry)) (id : String)
    (entry : ChangelogEntry) : List (String × List ChangelogEntry) :=
  dinsert changelog id ((dlookup changelog id).getD [] ++ [entry])

/-- Body of the per-rule loop of `ChangelogMgmt.update_and_lock`
(`packaging.py` lines 210-237).  In non-dry-run mode the local changelog is
popped from the rule's metadata; if substantive notes remain after filtering
the sentinels, a global entry is appended and (non-dry-run) a fresh
`_version_locked_` sentinel is re-seeded unless the rule is deprecated, and
the rule file is saved; otherwise the popped changelog is put back. -/
def ualStep (dry_run : Bool) (st : UALState) (rule : Rule) : UALState :=
  let rule_changelog := rule.changelog.getD []
  let rule₁ := if dry_run then rule else { rule with changelog := none }
  let changes := substantive_changes rule_changelog
  if changes.isEmpty then
    { st with rules := st.rules ++ [{ rule₁ with changelog := some rule_changelog }] }
  else
    let entry : ChangelogEntry :=
      { changes := changes, minimum_kibana_version := rule.minimum_kibana_version,
        rule_version := rule.get_version }
    let changelog' := appendGlobalEntry st.changelog rule.id entry
    if dry_run then
      { st with rules := st.rules ++ [rule₁], changelog := changelog' }
    else
      let rule₂ :=
        if rule.maturity = "deprecated" then rule₁
        else rule₁.append_changelog_entry "_version_locked_"
      { rules := st.rules ++ [rule₂], saved := st.saved ++ [rule.id],
        changelog := changelog' }

/-- Result of `ChangelogMgmt.update_and_lock`: the post-loop rules and saved
rule files, the in-memory global changelog, the file write (`none` when
nothing was written), and whether the `versions_locked` assertion of
`packaging.py` line 244 fired. -/
structure UALResult where
  rules : List Rule
  saved : List String
  changelog : List (String × List ChangelogEntry)
  written : Option (List (String × List ChangelogEntry))
  failed : Bool
deriving DecidableEq, Repr

/-- Embedding of `ChangelogMgmt.update_and_lock` (`packaging.py` lines
204-246): `versions` is the version.lock content consulted by
`versions_locked`, `global_changelog` the loaded rules-changelog, and
`default_save_path` whether `save_path` is the default `CHANGELOG_FILE`.
The per-rule loop runs first; afterwards, when not in dry-run mode, the
`versions_locked` assertion is checked only for the default save path, and
the global changelog file is written only when it does not fire. -/
def update_and_lock (versions : List (String × LockEntry))
    (global_changelog : List (String × List ChangelogEntry)) (rules : List Rule)
    (default_save_path : Bool) (dry_run : Bool) : UALResult :=
  let st := rules.foldl (ualStep dry_run)
    { rules := [], saved := [], changelog := global_changelog }
  if dry_run then
    { rules := st.rules, saved := st.saved, changelog := st.changelog,
      written := none, failed := false }
  else if default_save_path && !(versions_locked versions st.rules) then
    { rules := st.rules, saved := st.saved, changelog := st.changelog,
      written := none, failed := true }
  else
    { rules := st.rules, saved := st.saved, changelog := st.changelog,
      written := some st.changelog, failed := false }

/-- Splitting a character list on dots, the character-level core of the
version-string parser. -/
def splitVersionChars : List Char → List (List Char)
  | [] => [[]]
  | c :: rest =>
    if c = '.' then [] :: splitVersionChars rest
    else
      match splitVersionChars rest with
      | [] => [[c]]
      | group :: groups => (c :: group) :: groups

/-- Decimal value of a digit group. -/
def versionNat (cs : List Char) : Nat :=
  cs.foldl (fun n c => n * 10 + (c.toNat - 48)) 0

/-- Modelled from the spec: `Version(s)` (semver.py is not part of the
embedded sources) parses a dotted semantic version string into its numeric
components; slicing `[:2]` truncates to `(major, minor)`. -/
def parseVersion (s : String) : List Nat :=
  (splitVersionChars s.toList).map versionNat

/-- A registered rule API schema as consumed by the downgrade chain of
schemas/__init__.py: its `STACK_VERSION`, the set of payload fields it
defines, and whether it is the version-aware (`versioned()`) variant.
The per-version field sets themselves live in schema modules that are not
part of the embedded sources and are modelled from the spec (each schema
extends its predecessor with the fields introduced at that version). -/
structure ApiSchema where
  stack_version : String
  props : List String
  is_versioned : Bool
deriving DecidableEq, Repr

/-- Modelled from the spec: `schema.versioned()` returns a version-aware
variant of the schema that also validates/transforms the `version` field. -/
def ApiSchema.versioned (s : ApiSchema) : ApiSchema := { s with is_versioned := true }

/-- Fields admitted by a schema; the versioned variant additionally carries
the `version` field. -/
def ApiSchema.allProps (s : ApiSchema) : List String :=
  if s.is_versioned then "version" :: s.props else s.props

/-- Modelled from the spec: `current_schema.downgrade(target_schema,
payload, role)` — the per-schema single-step transforms (v7_8.py … v7_13.py
and base.py are not part of the embedded sources) drop the fields introduced
after the target version, i.e. restrict the payload to the fields the target
schema defines; `role` selects type-specific field-mapping rules and is
irrelevant to this field-dropping model. -/
def ApiSchema.downgrade (_s target : ApiSchema) (payload : List (String × String))
    (_role : Option String) : List (String × String) :=
  payload.filter fun kv => target.allProps.contains kv.1

/-- Schema for stack version 7.8, the oldest of the registered chain
(schemas/__init__.py lines 33-40); its field set is modelled from the spec. -/
def ApiSchema78 : ApiSchema :=
  { stack_version := "7.8",
    props := ["rule_id", "name", "type", "query", "language", "risk_score",
              "severity", "index", "description"],
    is_versioned := false }

/-- Schema for stack version 7.9; fields modelled from the spec. -/
def ApiSchema79 : ApiSchema :=
  { stack_version := "7.9",
    props := ApiSchema78.props ++ ["author", "building_block_type", "license"],
    is_versioned := false }

/-- Schema for stack version 7.10; fields modelled from the spec. -/
def ApiSchema710 : ApiSchema :=
  { stack_version := "7.10", props := ApiSchema79.props ++ ["threshold"],
    is_versioned := false }

/-- Schema for stack version 7.11; fields modelled from the spec. -/
def ApiSchema711 : ApiSchema :=
  { stack_version := "7.11",
    props := ApiSchema710.props ++ ["threat_indicator_path", "concurrent_searches"],
    is_versioned := false }

/-- Schema for stack version 7.12; fields modelled from the spec. -/
def ApiSchema712 : ApiSchema :=
  { stack_version := "7.12", props := ApiSchema711.props ++ ["threat_mapping"],
    is_versioned := false }

/-- Schema for stack version 7.13, the current schema; fields modelled from
the spec. -/
def ApiSchema713 : ApiSchema :=
  { stack_version := "7.13", props := ApiSchema712.props ++ ["threat_filters"],
    is_versioned := false }

/-- The ordered schema chain `all_schemas` of schemas/__init__.py
lines 33-40, oldest first. -/
def all_schemas : List ApiSchema :=
  [ApiSchema78, ApiSchema79, ApiSchema710, ApiSchema711, ApiSchema712, ApiSchema713]

/-- The registered stack versions, `available_versions` of
schemas/__init__.py line 42. -/
def available_versions : List String := all_schemas.map fun s => s.stack_version

/-- The `for target_schema in reversed(all_schemas)` loop of `downgrade`
(schemas/__init__.py lines 58-69): each schema is replaced by its versioned
variant when the payload carries a `version` field, one downgrade step is
applied whenever a current schema is already set, and the walk stops as soon
as the current schema's version equals the resolved target. -/
def downgradeWalk (check_versioned : Bool) (role : Option String)
    (target_version : List Nat) :
    List ApiSchema → Option ApiSchema → List (String × String) → List (String × String)
  | [], _, payload => payload
  | schema :: rest, current_schema, payload =>
    let target_schema := if check_versioned then schema.versioned else schema
    let payload' :=
      match current_schema with
      | none => payload
      | some cs => cs.downgrade target_schema payload role
    if parseVersion target_schema.stack_version = target_version then payload'
    else downgradeWalk check_versioned role target_version rest (some target_schema) payload'

/-- Embedding of `downgrade` (schemas/__init__.py lines 45-71): the target
version is truncated to `(major, minor)` and rejected with a `ValueError`
when no registered schema matches it; otherwise the chain is walked from
newest to oldest. -/
def downgrade (api_contents : List (String × String)) (target_version : String) :
    Except String (List (String × String)) :=
  let target := (parseVersion target_version).take 2
  let versions := all_schemas.map fun schema => parseVersion schema.stack_version
  let role := dlookup api_contents "type"
  let check_versioned := (dlookup api_contents "version").isSome
  if versions.contains target then
    Except.ok (downgradeWalk check_versioned role target all_schemas.reverse none api_contents)
  else
    Except.error ("Unable to downgrade from " ++ CurrentStackVersion ++ " to " ++ target_version)

/-- Characters admitted by the rule file-name pattern
`FILE_PATTERN = r'^([a-z0-9_])+\.(json|toml)$'` (rule_loader.py line 27). -/
def file_pattern_char (c : Char) : Bool := c.isLower || c.isDigit || c == '_'

/-- Embedding of `re.match(FILE_PATTERN, ...)` (rule_loader.py line 143):
a non-empty stem of `[a-z0-9_]` characters followed by `.json` or `.toml`,
checked over the character list. -/
def file_pattern (s : String) : Bool :=
  let cs := s.toList
  (List.isSuffixOf ['.', 'j', 's', 'o', 'n'] cs ||
      List.isSuffixOf ['.', 't', 'o', 'm', 'l'] cs) &&
    (let stem := cs.take (cs.length - 5)
     !stem.isEmpty && stem.all file_pattern_char)

/-- Embedding of `os.path.basename` as used on rule paths
(rule_loader.py line 143): the characters after the last slash. -/
def basename (path : String) : String :=
  String.mk (path.toList.foldl (fun acc c => if c = '/' then [] else acc ++ [c]) [])

/-- State threaded through the per-file loop of `load_rules`
(rule_loader.py lines 110-157): accumulated rules, seen ids and names, the
duplicate-query keys, the query-check index, and the error collection of the
non-fail-fast mode (rule_loader.py lines 110-116). -/
structure LoadState where
  rules : List Rule
  rule_ids : List String
  rule_names : List String
  queries : List (Option String × String × Option String × Option String)
  query_check_index : List Rule
  failed : Bool
  errors : List String
deriving DecidableEq, Repr

/-- The checks applied to one rule by the body of the `load_rules` loop
(rule_loader.py lines 118-148), in source order: duplicate `rule_id`,
duplicate `name`, duplicate query key `(parsed_query, type,
threshold.field, threshold.value)` for rules with a parsed query, and the
file-name pattern; a rule passing all checks is appended and its id and
name recorded. -/
def checkRule (st : LoadState) (rule : Rule) : Except String LoadState :=
  if st.rule_ids.contains rule.id then
    Except.error (rule.path ++ " has duplicate ID")
  else if st.rule_names.contains rule.name then
    Except.error (rule.path ++ " has duplicate name")
  else
    let afterQuery : Except String LoadState :=
      match rule.parsed_query with
      | none => Except.ok st
      | some _ =>
        let duplicate_key := (rule.parsed_query, rule.rule_type,
                              rule.threshold_field, rule.threshold_value)
        let st₁ := { st with query_check_index := st.query_check_index ++ [rule] }
        if st₁.queries.contains duplicate_key then
          Except.error (rule.path ++ " has duplicate query")
        else
          Except.ok { st₁ with queries := st₁.queries ++ [duplicate_key] }
    match afterQuery with
    | Except.error e => Except.error e
    | Except.ok st₂ =>
      if !file_pattern (basename rule.path) then
        Except.error (rule.path ++ " does not meet rule name standard")
      else
        Except.ok { st₂ with
          rules := st₂.rules ++ [rule],
          rule_ids := st₂.rule_ids ++ [rule.id],
          rule_names := st₂.rule_names ++ [rule.name] }

/-- One iteration of the `load_rules` loop (rule_loader.py lines 118-157):
with `error=True` the first failure is re-raised immediately (fail-fast);
with `error=False` the offending rule is skipped and the error collected. -/
def loadStep (error : Bool) (acc : Except String LoadState) (entry : String × Rule) :
    Except String LoadState :=
  match acc with
  | Except.error e => Except.error e
  | Except.ok st =>
    match checkRule st entry.2 with
    | Except.ok st' => Except.ok st'
    | Except.error e =>
      if error then Except.error e
      else Except.ok { st with failed := true, errors := st.errors ++ [e] }

/-- Initial state of the `load_rules` loop (rule_loader.py lines 110-116). -/
def loadInit : LoadState :=
  { rules := [], rule_ids := [], rule_names := [], queries := [],
    query_check_index := [], failed := false, errors := [] }

/-- Embedding of `load_rules` (rule_loader.py lines 105-164): rule files are
processed in order (the `Rule` construction itself belongs to rule.py, an
external collaborator, so `file_lookup` maps each path to its constructed
rule) and the surviving rules are returned keyed by id, sorted by name. -/
def load_rules (file_lookup : List (String × Rule)) (error : Bool) :
    Except String (List (String × Rule)) :=
  match file_lookup.foldl (loadStep error) (Except.ok loadInit) with
  | Except.error e => Except.error e
  | Except.ok st =>
    Except.ok (((st.rules.insertionSort fun a b => a.name ≤ b.name).map fun r => (r.id, r)))

/-!  Helper decompositions of the `manage_versions` loop, used to reason
about the fold: the transformed rule, the lock after one step, and the
per-component folds.  Each is proved equal to the corresponding component
of the fold of `mvStep` below. -/

/-- The in-memory rule produced by one `manage_versions` iteration. -/
def mvTransform (lock : List (String × LockEntry)) (r : Rule) : Rule :=
  match dlookup lock r.id with
  | none => { r with version := some 1 }
  | some e =>
    if r.get_hash ≠ e.sha256 then { r with version := some (e.version + 1) }
    else { r with version := some e.version }

/-- The version-lock dictionary after one `manage_versions` iteration. -/
def mvLockUpd (exclude_version_update : Bool) (lock : List (String × LockEntry))
    (r : Rule) : List (String × LockEntry) :=
  match dlookup lock r.id with
  | none => lock
  | some e =>
    if r.get_hash ≠ e.sha256 then
      dinsert lock r.id
        { version := if exclude_version_update then e.version else e.version + 1,
          sha256 := r.get_hash, rule_name := r.name }
    else lock

/-- The rules output of the `manage_versions` loop, as a standalone
recursion over the rule list. -/
def mvOutRules (exclude_version_update : Bool) (lock : List (String × LockEntry)) :
    List Rule → List Rule
  | [] => []
  | r :: rest =>
    mvTransform lock r :: mvOutRules exclude_version_update (mvLockUpd exclude_version_update lock r) rest

/-- The lock output of the `manage_versions` loop, as a standalone
recursion over the rule list. -/
def mvLockFold (exclude_version_update : Bool) (lock : List (String × LockEntry)) :
    List Rule → List (String × LockEntry)
  | [] => lock
  | r :: rest =>
    mvLockFold exclude_version_update (mvLockUpd exclude_version_update lock r) rest

/-- The changed-rules output of the `manage_versions` loop, as a standalone
recursion over the rule list. -/
def mvChanged (exclude_version_update : Bool) (lock : List (String × LockEntry)) :
    List Rule → List String
  | [] => []
  | r :: rest =>
    (match dlookup lock r.id with
     | none => []
     | some e => if r.get_hash ≠ e.sha256 then [r.id] else []) ++
    mvChanged exclude_version_update (mvLockUpd exclude_version_update lock r) rest

/-- The new-rules output of the `manage_versions` loop, as a standalone
recursion over the rule list. -/
def mvNewFold (exclude_version_update : Bool) (lock : List (String × LockEntry))
    (acc : List (String × LockEntry)) : List Rule → List (String × LockEntry)
  | [] => acc
  | r :: rest =>
    mvNewFold exclude_version_update (mvLockUpd exclude_version_update lock r)
      (match dlookup lock r.id with
       | none => dinsert acc r.id { rule_name := r.name, version := 1, sha256 := r.get_hash }
       | some _ => acc) rest

/-- A rule is stable for a given lock when re-running the `manage_versions`
loop on it would change nothing: either it is absent from the lock and
already carries version 1, or its lock entry matches its hash and it
already carries the locked version. -/
def ruleStableP (lock : List (String × LockEntry)) (r : Rule) : Prop :=
  match dlookup lock r.id with
  | none => r.version = some 1
  | some e => e.sha256 = r.get_hash ∧ r.version = some e.version

/-- The rule produced by one `update_and_lock` iteration (the per-rule part
of the loop body does not depend on the accumulated state). -/
def ualTransform (dry_run : Bool) (rule : Rule) : Rule :=
  let rule_changelog := rule.changelog.getD []
  let rule₁ := if dry_run then rule else { rule with changelog := none }
  if (substantive_changes rule_changelog).isEmpty then
    { rule₁ with changelog := some rule_changelog }
  else if dry_run then rule₁
  else if rule.maturity = "deprecated" then rule₁
  else rule₁.append_changelog_entry "_version_locked_"

/-- Whether one `update_and_lock` iteration saves the rule's file. -/
def ualSaves (dry_run : Bool) (rule : Rule) : Bool :=
  !dry_run && !(substantive_changes (rule.changelog.getD [])).isEmpty

/-- The key filter effectively applied to a payload by `downgradeWalk`: a
field survives the walk precisely when every step actually taken keeps it.
The `started` flag mirrors `current_schema is not None`. -/
def walkKeep (check_versioned : Bool) (target_version : List Nat) :
    List ApiSchema → Bool → String → Bool
  | [], _, _ => true
  | schema :: rest, started, key =>
    let target_schema := if check_versioned then schema.versioned else schema
    let keep := if started then target_schema.allProps.contains key else true
    if parseVersion target_schema.stack_version = target_version then keep
    else keep && walkKeep check_versioned target_version rest true key

/-- Concrete fixture: a production rule whose content hash `H2` differs from
its locked sha256 `H1`. -/
def sampleChangedRule : Rule :=
  { id := "a1", name := "A", path := "rules/windows/a_rule.toml", rule_type := "query",
    content := "H2", version := none, maturity := "production",
    changelog := some [], minimum_kibana_version := "7.8.0",
    parsed_query := some "q1", threshold_field := none, threshold_value := none }

/-- Concrete fixture: the lock holding `sampleChangedRule` at version 3 with
hash `H1`. -/
def sampleChangedLock : List (String × LockEntry) :=
  [("a1", { version := 3, sha256 := "H1", rule_name := "A" })]

/-- Concrete fixture: a rule absent from any lock. -/
def sampleNewRule : Rule :=
  { sampleChangedRule with id := "b1", name := "B", content := "H9" }

/-- Concrete fixture: a rule whose hash matches its lock entry. -/
def sampleUnchangedRule : Rule :=
  { sampleChangedRule with id := "c1", name := "C", content := "H1" }

/-- Concrete fixture: the lock holding `sampleUnchangedRule` at version 5. -/
def sampleUnchangedLock : List (String × LockEntry) :=
  [("c1", { version := 5, sha256 := "H1", rule_name := "C" })]

/-- Concrete fixture: a deprecated rule. -/
def sampleDeprecatedRule : Rule :=
  { sampleChangedRule with id := "d1", name := "D", maturity := "deprecated" }

/-- Concrete fixture: a deprecation registry already holding
`sampleDeprecatedRule` under an earlier date and stack version. -/
def sampleDepFile : List (String × DeprecationEntry) :=
  [("d1", { rule_name := "D", deprecation_date := "2019-05-05", stack_version := "7.10" })]

/-- Concrete fixture: a rule with a substantive pending changelog note whose
hash differs from its lock entry. -/
def samplePendingRule : Rule :=
  { sampleChangedRule with
    changelog := some [{ message := "_version_locked_" }, { message := "fixed fp" }] }

/-- Decidable equality for `Except`, used to evaluate embedded results on
concrete inputs. -/
instance {ε α : Type} [DecidableEq ε] [DecidableEq α] : DecidableEq (Except ε α) := fun a b =>
  match a, b with
  | Except.error x, Except.error y =>
    if h : x = y then isTrue (by rw [h]) else isFalse (fun hc => h (by cases hc; rfl))
  | Except.error _, Except.ok _ => isFalse (fun hc => by cases hc)
  | Except.ok _, Except.error _ => isFalse (fun hc => by cases hc)
  | Except.ok x, Except.ok y =>
    if h : x = y then isTrue (by rw [h]) else isFalse (fun hc => h (by cases hc; rfl))

theorem dlookup_dinsert {α : Type} (l : List (String × α)) (k k' : String) (v : α) :
    dlookup (dinsert l k v) k' = if k = k' then some v else dlookup l k' := by
  induction l with
  | nil => by_cases h : k = k' <;> simp [dinsert, dlookup, h]
  | cons hd tl ih =>
    obtain ⟨k₀, v₀⟩ := hd
    by_cases h₀ : k₀ = k
    · subst h₀
      by_cases h : k₀ = k' <;> simp [dinsert, dlookup, h]
    · by_cases h : k₀ = k'
      · subst h
        have hkk' : ¬(k = k₀) := fun he => h₀ he.symm
        simp [dinsert, dlookup, h₀, hkk']
      · simp [dinsert, dlookup, h₀, h, ih]

theorem dlookup_none_iff {α : Type} (l : List (String × α)) (k : String) :
    dlookup l k = none ↔ k ∉ l.map Prod.fst := by
  induction l with
  | nil => simp [dlookup]
  | cons hd tl ih =>
    obtain ⟨k₀, v₀⟩ := hd
    by_cases h : k₀ = k
    · subst h
      simp [dlookup]
    · have h' : ¬(k = k₀) := fun he => h he.symm
      simp [dlookup, h, h', ih]

theorem mem_fst_of_dlookup_some {α : Type} {l : List (String × α)} {k : String} {v : α}
    (h : dlookup l k = some v) : k ∈ l.map Prod.fst := by
  by_contra hc
  rw [← dlookup_none_iff] at hc
  rw [h] at hc
  cases hc

/-! Decomposition of the fold of `mvStep` into the standalone recursions. -/

theorem mvFold_eq (ex : Bool) (rules : List Rule) (st : MVState) :
    rules.foldl (mvStep ex) st =
      { rules := st.rules ++ mvOutRules ex st.lock rules,
        lock := mvLockFold ex st.lock rules,
        new_rules := mvNewFold ex st.lock st.new_rules rules,
        changed_rules := st.changed_rules ++ mvChanged ex st.lock rules } := by
  induction rules generalizing st with
  | nil => simp [mvOutRules, mvLockFold, mvNewFold, mvChanged]
  | cons r rest ih =>
    rw [List.foldl_cons, ih]
    rcases h : dlookup st.lock r.id with _ | e
    · simp [mvStep, mvTransform, mvLockUpd, mvOutRules, mvLockFold, mvNewFold, mvChanged, h]
    · by_cases hh : r.get_hash = e.sha256
      · simp [mvStep, mvTransform, mvLockUpd, mvOutRules, mvLockFold, mvNewFold, mvChanged,
          h, hh]
      · simp [mvStep, mvTransform, mvLockUpd, mvOutRules, mvLockFold, mvNewFold, mvChanged,
          h, hh]

theorem dlookup_mvLockUpd_ne (ex : Bool) (lock : List (String × LockEntry)) (r : Rule)
    (i : String) (h : i ≠ r.id) :
    dlookup (mvLockUpd ex lock r) i = dlookup lock i := by
  unfold mvLockUpd
  rcases hl : dlookup lock r.id with _ | e
  · rfl
  · by_cases hh : r.get_hash = e.sha256
    · simp [hh]
    · have : r.id ≠ i := fun he => h he.symm
      simp [hh, dlookup_dinsert, this]

theorem dlookup_mvLockUpd_none_iff (ex : Bool) (lock : List (String × LockEntry)) (r : Rule)
    (i : String) :
    dlookup (mvLockUpd ex lock r) i = none ↔ dlookup lock i = none := by
  unfold mvLockUpd
  rcases hl : dlookup lock r.id with _ | e
  · rfl
  · by_cases hh : r.get_hash = e.sha256
    · simp [hh]
    · by_cases hi : r.id = i
      · subst hi
        simp [hh, dlookup_dinsert, hl]
      · simp [hh, dlookup_dinsert, hi]

theorem dlookup_mvLockFold_ne (ex : Bool) (rs : List Rule) (lock : List (String × LockEntry))
    (i : String) (h : i ∉ rs.map Rule.id) :
    dlookup (mvLockFold ex lock rs) i = dlookup lock i := by
  induction rs generalizing lock with
  | nil => rfl
  | cons r rest ih =>
    simp only [List.map_cons, List.mem_cons, not_or] at h
    rw [mvLockFold, ih _ h.2, dlookup_mvLockUpd_ne _ _ _ _ h.1]

theorem dlookup_mvLockFold_none_iff (ex : Bool) (rs : List Rule)
    (lock : List (String × LockEntry)) (i : String) :
    dlookup (mvLockFold ex lock rs) i = none ↔ dlookup lock i = none := by
  induction rs generalizing lock with
  | nil => exact Iff.rfl
  | cons r rest ih =>
    rw [mvLockFold, ih, dlookup_mvLockUpd_none_iff]

theorem mvOutRules_append (ex : Bool) (xs ys : List Rule) (lock : List (String × LockEntry)) :
    mvOutRules ex lock (xs ++ ys) =
      mvOutRules ex lock xs ++ mvOutRules ex (mvLockFold ex lock xs) ys := by
  induction xs generalizing lock with
  | nil => simp [mvOutRules, mvLockFold]
  | cons r rest ih => simp [mvOutRules, mvLockFold, ih]

theorem mvLockFold_append (ex : Bool) (xs ys : List Rule) (lock : List (String × LockEntry)) :
    mvLockFold ex lock (xs ++ ys) = mvLockFold ex (mvLockFold ex lock xs) ys := by
  induction xs generalizing lock with
  | nil => simp [mvLockFold]
  | cons r rest ih => simp [mvLockFold, ih]

theorem mvChanged_append (ex : Bool) (xs ys : List Rule) (lock : List (String × LockEntry)) :
    mvChanged ex lock (xs ++ ys) =
      mvChanged ex lock xs ++ mvChanged ex (mvLockFold ex lock xs) ys := by
  induction xs generalizing lock with
  | nil => simp [mvChanged, mvLockFold]
  | cons r rest ih => simp [mvChanged, mvLockFold, ih]

theorem mvNewFold_append (ex : Bool) (xs ys : List Rule) (lock : List (String × LockEntry))
    (acc : List (String × LockEntry)) :
    mvNewFold ex lock acc (xs ++ ys) =
      mvNewFold ex (mvLockFold ex lock xs) (mvNewFold ex lock acc xs) ys := by
  induction xs generalizing lock acc with
  | nil => simp [mvNewFold, mvLockFold]
  | cons r rest ih => simp [mvNewFold, mvLockFold, ih]

theorem mvChanged_subset (ex : Bool) (rs : List Rule) (lock : List (String × LockEntry))
    (x : String) (hx : x ∈ mvChanged ex lock rs) : x ∈ rs.map Rule.id := by
  induction rs generalizing lock with
  | nil => simp [mvChanged] at hx
  | cons r rest ih =>
    rw [mvChanged, List.mem_append] at hx
    rcases hx with hx | hx
    · rcases h : dlookup lock r.id with _ | e
      · rw [h] at hx; simp at hx
      · rw [h] at hx
        by_cases hh : r.get_hash = e.sha256
        · simp [hh] at hx
        · simp [hh] at hx
          simp [hx]
    · simp [ih _ hx]

theorem dlookup_mvNewFold_ne (ex : Bool) (rs : List Rule) (lock : List (String × LockEntry))
    (acc : List (String × LockEntry)) (i : String) (h : i ∉ rs.map Rule.id) :
    dlookup (mvNewFold ex lock acc rs) i = dlookup acc i := by
  induction rs generalizing lock acc with
  | nil => rfl
  | cons r rest ih =>
    simp only [List.map_cons, List.mem_cons, not_or] at h
    rw [mvNewFold, ih _ _ h.2]
    rcases hl : dlookup lock r.id with _ | e
    · have : r.id ≠ i := fun he => h.1 he.symm
      rw [dlookup_dinsert]
      simp [this]
    · rfl

theorem mvTransform_id (lock : List (String × LockEntry)) (r : Rule) :
    (mvTransform lock r).id = r.id := by
  unfold mvTransform
  rcases h : dlookup lock r.id with _ | e <;> simp only [h] <;>
    first
      | rfl
      | (split <;> rfl)

theorem mvTransform_hash (lock : List (String × LockEntry)) (r : Rule) :
    (mvTransform lock r).get_hash = r.get_hash := by
  unfold mvTransform
  rcases h : dlookup lock r.id with _ | e <;> simp only [h] <;>
    first
      | rfl
      | (split <;> rfl)

theorem mvTransform_name (lock : List (String × LockEntry)) (r : Rule) :
    (mvTransform lock r).name = r.name := by
  unfold mvTransform
  rcases h : dlookup lock r.id with _ | e <;> simp only [h] <;>
    first
      | rfl
      | (split <;> rfl)

/-! Component equations for `manage_versions`. -/

theorem manage_versions_rules_eq (rules deprecated_rules : List Rule)
    (cv : List (String × LockEntry)) (df : List (String × DeprecationEntry))
    (today : String) (ex : Bool) :
    (manage_versions rules deprecated_rules cv df today ex).rules = mvOutRules ex cv rules := by
  simp [manage_versions, mvFold_eq]

theorem manage_versions_lock_eq (rules deprecated_rules : List Rule)
    (cv : List (String × LockEntry)) (df : List (String × DeprecationEntry))
    (today : String) (ex : Bool) :
    (manage_versions rules deprecated_rules cv df today ex).lock = mvLockFold ex cv rules := by
  simp [manage_versions, mvFold_eq]

theorem manage_versions_new_eq (rules deprecated_rules : List Rule)
    (cv : List (String × LockEntry)) (df : List (String × DeprecationEntry))
    (today : String) (ex : Bool) :
    (manage_versions rules deprecated_rules cv df today ex).new_rules =
      mvNewFold ex cv [] rules := by
  simp [manage_versions, mvFold_eq]

theorem manage_versions_changed_eq (rules deprecated_rules : List Rule)
    (cv : List (String × LockEntry)) (df : List (String × DeprecationEntry))
    (today : String) (ex : Bool) :
    (manage_versions rules deprecated_rules cv df today ex).changed_rules =
      mvChanged ex cv rules := by
  simp [manage_versions, mvFold_eq]

theorem manage_versions_dep_eq (rules deprecated_rules : List Rule)
    (cv : List (String × LockEntry)) (df : List (String × DeprecationEntry))
    (today : String) (ex : Bool) :
    (manage_versions rules deprecated_rules cv df today ex).deprecations =
      (if deprecated_rules.isEmpty then ([], [])
       else deprecated_rules.foldl (depStep today) (df, [])).1 := by
  simp [manage_versions]

theorem manage_versions_newly_eq (rules deprecated_rules : List Rule)
    (cv : List (String × LockEntry)) (df : List (String × DeprecationEntry))
    (today : String) (ex : Bool) :
    (manage_versions rules deprecated_rules cv df today ex).newly_deprecated =
      (if deprecated_rules.isEmpty then ([], [])
       else deprecated_rules.foldl (depStep today) (df, [])).2 := by
  simp [manage_versions]

theorem nodup_split_mem {pre post : List Rule} {r : Rule}
    (hids : ((pre ++ r :: post).map Rule.id).Nodup) :
    r.id ∉ pre.map Rule.id ∧ r.id ∉ post.map Rule.id := by
  rw [List.map_append, List.map_cons] at hids
  obtain ⟨h₁, h₂, hdisj⟩ := List.nodup_append.mp hids
  exact ⟨fun hc => hdisj hc (List.mem_cons_self _ _), (List.nodup_cons.mp h₂).1⟩

/-- Claim C1: for every rule present in the existing version lock whose
computed hash differs from the locked sha256, `manage_versions` sets the
in-memory rule's version to `locked_version + 1`, updates the lock entry's
sha256 and rule_name, and reports the rule id as changed; when
`exclude_version_update` (freeze mode) is passed, the in-memory rule still
carries the bumped version but the lock entry's stored version number is not
modified. -/
theorem manage_versions_changed_rule
    (rules deprecated_rules : List Rule) (current_versions : List (String × LockEntry))
    (deprecations_file : List (String × DeprecationEntry)) (today : String)
    (exclude_version_update : Bool) (r : Rule) (e : LockEntry)
    (hmem : r ∈ rules) (hids : (rules.map Rule.id).Nodup)
    (hlock : dlookup current_versions r.id = some e) (hhash : r.get_hash ≠ e.sha256) :
    ({ r with version := some (e.version + 1) } ∈
      (manage_versions rules deprecated_rules current_versions deprecations_file today
        exclude_version_update).rules) ∧
    r.id ∈ (manage_versions rules deprecated_rules current_versions deprecations_file today
        exclude_version_update).changed_rules ∧
    dlookup (manage_versions rules deprecated_rules current_versions deprecations_file today
        exclude_version_update).lock r.id =
      some { version := if exclude_version_update then e.version else e.version + 1,
             sha256 := r.get_hash, rule_name := r.name } := by
  obtain ⟨pre, post, rfl⟩ := List.append_of_mem hmem
  obtain ⟨hpre, hpost⟩ := nodup_split_mem hids
  have hL : dlookup (mvLockFold exclude_version_update current_versions pre) r.id = some e := by
    rw [dlookup_mvLockFold_ne _ _ _ _ hpre, hlock]
  refine ⟨?_, ?_, ?_⟩
  · rw [manage_versions_rules_eq, mvOutRules_append]
    apply List.mem_append_right
    rw [mvOutRules]
    have ht : mvTransform (mvLockFold exclude_version_update current_versions pre) r =
        { r with version := some (e.version + 1) } := by
      unfold mvTransform
      rw [hL]
      simp only [if_pos hhash]
    rw [ht]
    exact List.mem_cons_self _ _
  · rw [manage_versions_changed_eq, mvChanged_append]
    apply List.mem_append_right
    rw [mvChanged, hL]
    simp only [if_pos hhash]
    exact List.mem_append_left _ (List.mem_singleton.mpr rfl)
  · rw [manage_versions_lock_eq, mvLockFold_append, mvLockFold,
      dlookup_mvLockFold_ne _ _ _ _ hpost]
    unfold mvLockUpd
    rw [hL]
    simp only [if_pos hhash]
    rw [dlookup_dinsert]
    simp

/-- Witness for `manage_versions_changed_rule` at a concrete input: the
sample changed rule locked at version 3 is bumped to 4, reported changed,
and its lock entry rewritten. -/
theorem manage_versions_changed_rule_witness :
    ({ sampleChangedRule with version := some 4 } ∈
      (manage_versions [sampleChangedRule] [] sampleChangedLock [] "2020-01-01" false).rules) ∧
    "a1" ∈ (manage_versions [sampleChangedRule] [] sampleChangedLock [] "2020-01-01"
        false).changed_rules ∧
    dlookup (manage_versions [sampleChangedRule] [] sampleChangedLock [] "2020-01-01"
        false).lock "a1" =
      some { version := 4, sha256 := "H2", rule_name := "A" } :=
  manage_versions_changed_rule [sampleChangedRule] [] sampleChangedLock [] "2020-01-01" false
    sampleChangedRule { version := 3, sha256 := "H1", rule_name := "A" }
    (by decide) (by decide) (by decide) (by decide)

/-- Claim C2: for every rule whose rule_id is not present in the existing
version lock, `manage_versions` sets the rule's version to 1, reports the
rule id in the new-rules collection, and records a lock entry
`{version: 1, sha256: hash(rule), rule_name: rule.name}` for it. -/
theorem manage_versions_new_rule
    (rules deprecated_rules : List Rule) (current_versions : List (String × LockEntry))
    (deprecations_file : List (String × DeprecationEntry)) (today : String) (ex : Bool)
    (r : Rule) (hmem : r ∈ rules) (hids : (rules.map Rule.id).Nodup)
    (hlock : dlookup current_versions r.id = none) :
    ({ r with version := some 1 } ∈
      (manage_versions rules deprecated_rules current_versions deprecations_file today
        ex).rules) ∧
    r.id ∈ ((manage_versions rules deprecated_rules current_versions deprecations_file today
        ex).new_rules).map Prod.fst ∧
    dlookup (manage_versions rules deprecated_rules current_versions deprecations_file today
        ex).new_rules r.id =
      some { version := 1, sha256 := r.get_hash, rule_name := r.name } := by
  obtain ⟨pre, post, rfl⟩ := List.append_of_mem hmem
  obtain ⟨hpre, hpost⟩ := nodup_split_mem hids
  have hL : dlookup (mvLockFold ex current_versions pre) r.id = none := by
    rw [dlookup_mvLockFold_ne _ _ _ _ hpre, hlock]
  have hnew : dlookup (manage_versions (pre ++ r :: post) deprecated_rules current_versions
      deprecations_file today ex).new_rules r.id =
      some { version := 1, sha256 := r.get_hash, rule_name := r.name } := by
    rw [manage_versions_new_eq, mvNewFold_append, mvNewFold, hL,
      dlookup_mvNewFold_ne _ _ _ _ _ hpost, dlookup_dinsert]
    simp
  refine ⟨?_, mem_fst_of_dlookup_some hnew, hnew⟩
  rw [manage_versions_rules_eq, mvOutRules_append]
  apply List.mem_append_right
  rw [mvOutRules]
  have ht : mvTransform (mvLockFold ex current_versions pre) r =
      { r with version := some 1 } := by
    unfold mvTransform
    rw [hL]
  rw [ht]
  exact List.mem_cons_self _ _

/-- Witness for `manage_versions_new_rule` at a concrete input: the sample
new rule gets version 1 and a fresh `new_rules` record. -/
theorem manage_versions_new_rule_witness :
    ({ sampleNewRule with version := some 1 } ∈
      (manage_versions [sampleNewRule] [] [] [] "2020-01-01" false).rules) ∧
    "b1" ∈ ((manage_versions [sampleNewRule] [] [] [] "2020-01-01" false).new_rules).map
        Prod.fst ∧
    dlookup (manage_versions [sampleNewRule] [] [] [] "2020-01-01" false).new_rules "b1" =
      some { version := 1, sha256 := "H9", rule_name := "B" } :=
  manage_versions_new_rule [sampleNewRule] [] [] [] "2020-01-01" false sampleNewRule
    (by decide) (by decide) (by decide)

/-- Claim C6: for every rule present in the version lock whose computed hash
equals the locked sha256, `manage_versions` sets the in-memory rule's
version to the locked version, does not report the rule as changed, and
leaves that rule's lock entry unmodified. -/
theorem manage_versions_unchanged_rule
    (rules deprecated_rules : List Rule) (current_versions : List (String × LockEntry))
    (deprecations_file : List (String × DeprecationEntry)) (today : String) (ex : Bool)
    (r : Rule) (e : LockEntry) (hmem : r ∈ rules) (hids : (rules.map Rule.id).Nodup)
    (hlock : dlookup current_versions r.id = some e) (hhash : r.get_hash = e.sha256) :
    ({ r with version := some e.version } ∈
      (manage_versions rules deprecated_rules current_versions deprecations_file today
        ex).rules) ∧
    r.id ∉ (manage_versions rules deprecated_rules current_versions deprecations_file today
        ex).changed_rules ∧
    dlookup (manage_versions rules deprecated_rules current_versions deprecations_file today
        ex).lock r.id = some e := by
  obtain ⟨pre, post, rfl⟩ := List.append_of_mem hmem
  obtain ⟨hpre, hpost⟩ := nodup_split_mem hids
  have hL : dlookup (mvLockFold ex current_versions pre) r.id = some e := by
    rw [dlookup_mvLockFold_ne _ _ _ _ hpre, hlock]
  have hnn : ¬(r.get_hash ≠ e.sha256) := fun hc => hc hhash
  have hupd : mvLockUpd ex (mvLockFold ex current_versions pre) r =
      mvLockFold ex current_versions pre := by
    unfold mvLockUpd
    rw [hL]
    simp only [if_neg hnn]
  refine ⟨?_, ?_, ?_⟩
  · rw [manage_versions_rules_eq, mvOutRules_append]
    apply List.mem_append_right
    rw [mvOutRules]
    have ht : mvTransform (mvLockFold ex current_versions pre) r =
        { r with version := some e.version } := by
      unfold mvTransform
      rw [hL]
      simp only [if_neg hnn]
    rw [ht]
    exact List.mem_cons_self _ _
  · rw [manage_versions_changed_eq, mvChanged_append]
    intro hc
    rcases List.mem_append.mp hc with hc | hc
    · exact hpre (mvChanged_subset _ _ _ _ hc)
    · rw [mvChanged, hL] at hc
      simp only [if_neg hnn] at hc
      rw [List.nil_append, hupd] at hc
      exact hpost (mvChanged_subset _ _ _ _ hc)
  · rw [manage_versions_lock_eq, mvLockFold_append, mvLockFold,
      dlookup_mvLockFold_ne _ _ _ _ hpost, hupd, hL]

/-- Witness for `manage_versions_unchanged_rule` at a concrete input: the
sample unchanged rule keeps version 5 and its lock entry. -/
theorem manage_versions_unchanged_rule_witness :
    ({ sampleUnchangedRule with version := some 5 } ∈
      (manage_versions [sampleUnchangedRule] [] sampleUnchangedLock [] "2020-01-01"
        false).rules) ∧
    "c1" ∉ (manage_versions [sampleUnchangedRule] [] sampleUnchangedLock [] "2020-01-01"
        false).changed_rules ∧
    dlookup (manage_versions [sampleUnchangedRule] [] sampleUnchangedLock [] "2020-01-01"
        false).lock "c1" = some { version := 5, sha256 := "H1", rule_name := "C" } :=
  manage_versions_unchanged_rule [sampleUnchangedRule] [] sampleUnchangedLock []
    "2020-01-01" false sampleUnchangedRule { version := 5, sha256 := "H1", rule_name := "C" }
    (by decide) (by decide) (by decide) (by decide)

/-! Stability of a second `manage_versions` pass over the in-memory state
left by a first pass (the situation of two reconciles in one process with no
intervening persistence: the cached `load_versions` dictionary and the rule
objects are shared and already mutated). -/

theorem Rule.set_version_self (r : Rule) (v : Option Nat) (h : r.version = v) :
    { r with version := v } = r := by
  subst h
  rfl

theorem mvOutRules_stable (rules : List Rule) (lock : List (String × LockEntry))
    (hids : (rules.map Rule.id).Nodup) :
    ∀ r' ∈ mvOutRules false lock rules, ruleStableP (mvLockFold false lock rules) r' := by
  induction rules generalizing lock with
  | nil =>
    intro r' h
    simp [mvOutRules] at h
  | cons r rest ih =>
    rw [List.map_cons, List.nodup_cons] at hids
    intro r' h
    rw [mvOutRules] at h
    rw [mvLockFold]
    rcases List.mem_cons.mp h with h | h
    · subst h
      unfold ruleStableP
      rw [mvTransform_id,
        dlookup_mvLockFold_ne false rest (mvLockUpd false lock r) r.id hids.1]
      unfold mvTransform mvLockUpd
      rcases hl : dlookup lock r.id with _ | e
      · simp only [hl]
      · by_cases hh : r.get_hash = e.sha256
        · have hnn : ¬(r.get_hash ≠ e.sha256) := fun hc => hc hh
          simp only [hl, if_neg hnn]
          exact ⟨hh.symm, trivial⟩
        · simp only [hl, if_pos hh]
          rw [dlookup_dinsert]
          simp only [if_pos rfl]
          refine ⟨rfl, ?_⟩
          simp
    · exact ih (mvLockUpd false lock r) hids.2 r' h

theorem mvLockUpd_of_stable (ex : Bool) (lock : List (String × LockEntry)) (r : Rule)
    (h : ruleStableP lock r) : mvLockUpd ex lock r = lock := by
  unfold ruleStableP at h
  unfold mvLockUpd
  rcases hl : dlookup lock r.id with _ | e
  · rfl
  · rw [hl] at h
    have hnn : ¬(r.get_hash ≠ e.sha256) := fun hc => hc h.1.symm
    simp only [if_neg hnn]

theorem mvTransform_of_stable (lock : List (String × LockEntry)) (r : Rule)
    (h : ruleStableP lock r) : mvTransform lock r = r := by
  unfold ruleStableP at h
  unfold mvTransform
  rcases hl : dlookup lock r.id with _ | e
  · rw [hl] at h
    exact Rule.set_version_self r _ h
  · rw [hl] at h
    have h' : e.sha256 = r.get_hash ∧ r.version = some e.version := h
    have hnn : ¬(r.get_hash ≠ e.sha256) := fun hc => hc h'.1.symm
    simp only [if_neg hnn]
    exact Rule.set_version_self r _ h'.2

theorem mvOutRules_of_stable (ex : Bool) (rules : List Rule)
    (lock : List (String × LockEntry)) (h : ∀ r ∈ rules, ruleStableP lock r) :
    mvOutRules ex lock rules = rules := by
  induction rules with
  | nil => rfl
  | cons r rest ih =>
    have hr := h r (List.mem_cons_self _ _)
    rw [mvOutRules, mvLockUpd_of_stable ex lock r hr, mvTransform_of_stable lock r hr,
      ih fun x hx => h x (List.mem_cons_of_mem _ hx)]

theorem mvLockFold_of_stable (ex : Bool) (rules : List Rule)
    (lock : List (String × LockEntry)) (h : ∀ r ∈ rules, ruleStableP lock r) :
    mvLockFold ex lock rules = lock := by
  induction rules with
  | nil => rfl
  | cons r rest ih =>
    rw [mvLockFold, mvLockUpd_of_stable ex lock r (h r (List.mem_cons_self _ _)),
      ih fun x hx => h x (List.mem_cons_of_mem _ hx)]

theorem mvChanged_of_stable (ex : Bool) (rules : List Rule)
    (lock : List (String × LockEntry)) (h : ∀ r ∈ rules, ruleStableP lock r) :
    mvChanged ex lock rules = [] := by
  induction rules with
  | nil => rfl
  | cons r rest ih =>
    have hr := h r (List.mem_cons_self _ _)
    rw [mvChanged, mvLockUpd_of_stable ex lock r hr,
      ih fun x hx => h x (List.mem_cons_of_mem _ hx)]
    unfold ruleStableP at hr
    rcases hl : dlookup lock r.id with _ | e
    · rfl
    · rw [hl] at hr
      have hr' : e.sha256 = r.get_hash ∧ r.version = some e.version := hr
      have hnn : ¬(r.get_hash ≠ e.sha256) := fun hc => hc hr'.1.symm
      simp [hnn]

theorem mvNewFold_domEq (ex₁ ex₂ : Bool) (rules : List Rule)
    (lock lockF acc : List (String × LockEntry))
    (hdom : ∀ i, dlookup lockF i = none ↔ dlookup lock i = none) :
    mvNewFold ex₂ lockF acc (mvOutRules ex₁ lock rules) = mvNewFold ex₁ lock acc rules := by
  induction rules generalizing lock lockF acc with
  | nil => rfl
  | cons r rest ih =>
    rw [mvOutRules, mvNewFold, mvNewFold, mvTransform_id]
    have hdom' : ∀ i, dlookup (mvLockUpd ex₂ lockF (mvTransform lock r)) i = none ↔
        dlookup (mvLockUpd ex₁ lock r) i = none := fun i => by
      rw [dlookup_mvLockUpd_none_iff, dlookup_mvLockUpd_none_iff]
      exact hdom i
    rcases hl : dlookup lock r.id with _ | e
    · have hlf : dlookup lockF r.id = none := (hdom r.id).mpr hl
      simp only [hlf, mvTransform_hash, mvTransform_name]
      exact ih _ _ _ hdom'
    · have hlf : ¬(dlookup lockF r.id = none) := by
        rw [hdom r.id, hl]
        simp
      rcases hf : dlookup lockF r.id with _ | ef
      · exact absurd hf hlf
      · simp only [hf]
        exact ih _ _ _ hdom'

/-- Counterexample to claim C3 as stated: with a single changed rule and a
shared in-memory lock (no intervening persistence), the first reconcile
reports the rule as changed while the second reports nothing changed — the
classifications of the two calls are not identical. -/
theorem manage_versions_classification_not_idempotent :
    ¬((manage_versions
        (manage_versions [sampleChangedRule] [] sampleChangedLock [] "2020-01-01" false).rules
        []
        (manage_versions [sampleChangedRule] [] sampleChangedLock [] "2020-01-01" false).lock
        [] "2020-01-01" false).changed_rules =
      (manage_versions [sampleChangedRule] [] sampleChangedLock [] "2020-01-01"
        false).changed_rules) := by
  decide

/-- Claim C3 (amended): with default options, calling `manage_versions`
twice in a row on the shared in-memory state with no intervening lock
persistence yields the same resulting rule version numbers as calling it
once (no rule's version is incremented twice), the same lock, the same
new-rules and newly-deprecated collections — but not the same changed
classification: the second call's changed collection is empty, rules bumped
by the first call being classified as unchanged. -/
theorem manage_versions_second_pass
    (rules deprecated_rules : List Rule) (lock : List (String × LockEntry))
    (depfile : List (String × DeprecationEntry)) (today : String)
    (hids : (rules.map Rule.id).Nodup) :
    (manage_versions (manage_versions rules deprecated_rules lock depfile today false).rules
        deprecated_rules
        (manage_versions rules deprecated_rules lock depfile today false).lock
        depfile today false).rules =
      (manage_versions rules deprecated_rules lock depfile today false).rules ∧
    (manage_versions (manage_versions rules deprecated_rules lock depfile today false).rules
        deprecated_rules
        (manage_versions rules deprecated_rules lock depfile today false).lock
        depfile today false).lock =
      (manage_versions rules deprecated_rules lock depfile today false).lock ∧
    (manage_versions (manage_versions rules deprecated_rules lock depfile today false).rules
        deprecated_rules
        (manage_versions rules deprecated_rules lock depfile today false).lock
        depfile today false).new_rules =
      (manage_versions rules deprecated_rules lock depfile today false).new_rules ∧
    (manage_versions (manage_versions rules deprecated_rules lock depfile today false).rules
        deprecated_rules
        (manage_versions rules deprecated_rules lock depfile today false).lock
        depfile today false).newly_deprecated =
      (manage_versions rules deprecated_rules lock depfile today false).newly_deprecated ∧
    (manage_versions (manage_versions rules deprecated_rules lock depfile today false).rules
        deprecated_rules
        (manage_versions rules deprecated_rules lock depfile today false).lock
        depfile today false).deprecations =
      (manage_versions rules deprecated_rules lock depfile today false).deprecations ∧
    (manage_versions (manage_versions rules deprecated_rules lock depfile today false).rules
        deprecated_rules
        (manage_versions rules deprecated_rules lock depfile today false).lock
        depfile today false).changed_rules = [] := by
  have hstab : ∀ r' ∈ (manage_versions rules deprecated_rules lock depfile today false).rules,
      ruleStableP (manage_versions rules deprecated_rules lock depfile today false).lock r' := by
    rw [manage_versions_rules_eq, manage_versions_lock_eq]
    exact mvOutRules_stable rules lock hids
  refine ⟨?_, ?_, ?_, ?_, ?_, ?_⟩
  · rw [manage_versions_rules_eq]
    exact mvOutRules_of_stable false _ _ hstab
  · rw [manage_versions_lock_eq]
    exact mvLockFold_of_stable false _ _ hstab
  · rw [manage_versions_new_eq, manage_versions_new_eq,
      manage_versions_rules_eq rules deprecated_rules lock depfile today false,
      manage_versions_lock_eq rules deprecated_rules lock depfile today false]
    exact mvNewFold_domEq false false rules lock _ []
      fun i => dlookup_mvLockFold_none_iff false rules lock i
  · rw [manage_versions_newly_eq, manage_versions_newly_eq]
  · rw [manage_versions_dep_eq, manage_versions_dep_eq]
  · rw [manage_versions_changed_eq]
    exact mvChanged_of_stable false _ _ hstab

/-- Witness for `manage_versions_second_pass` at a concrete input: two
passes over the sample changed rule leave version 4 in place and report no
change the second time. -/
theorem manage_versions_second_pass_witness :
    (manage_versions
        (manage_versions [sampleChangedRule] [] sampleChangedLock [] "2020-01-01" false).rules
        [] (manage_versions [sampleChangedRule] [] sampleChangedLock [] "2020-01-01" false).lock
        [] "2020-01-01" false).rules =
      (manage_versions [sampleChangedRule] [] sampleChangedLock [] "2020-01-01"
        false).rules ∧
    (manage_versions
        (manage_versions [sampleChangedRule] [] sampleChangedLock [] "2020-01-01" false).rules
        [] (manage_versions [sampleChangedRule] [] sampleChangedLock [] "2020-01-01" false).lock
        [] "2020-01-01" false).changed_rules = [] := by
  have h := manage_versions_second_pass [sampleChangedRule] [] sampleChangedLock []
    "2020-01-01" (by decide)
  exact ⟨h.1, h.2.2.2.2.2⟩

/-! Deprecation-registry lemmas. -/

theorem depFold_fst_ne (today : String) (rs : List Rule)
    (reg : List (String × DeprecationEntry)) (acc : List String) (i : String)
    (h : i ∉ rs.map Rule.id) :
    dlookup (rs.foldl (depStep today) (reg, acc)).1 i = dlookup reg i := by
  induction rs generalizing reg acc with
  | nil => rfl
  | cons r rest ih =>
    simp only [List.map_cons, List.mem_cons, not_or] at h
    rw [List.foldl_cons]
    rcases hl : dlookup reg r.id with _ | e
    · simp only [depStep, hl]
      rw [ih _ _ h.2, dlookup_dinsert]
      have hne : ¬(r.id = i) := fun he => h.1 he.symm
      simp [hne]
    · simp only [depStep, hl]
      exact ih _ _ h.2

theorem depFold_fst_pres (today : String) (rs : List Rule)
    (reg : List (String × DeprecationEntry)) (acc : List String) (i : String)
    (v : DeprecationEntry) (h : dlookup reg i = some v) :
    dlookup (rs.foldl (depStep today) (reg, acc)).1 i = some v := by
  induction rs generalizing reg acc with
  | nil => exact h
  | cons r rest ih =>
    rw [List.foldl_cons]
    rcases hl : dlookup reg r.id with _ | e
    · simp only [depStep, hl]
      apply ih
      have hne : ¬(r.id = i) := by
        intro he
        rw [he, h] at hl
        exact Option.noConfusion hl
      rw [dlookup_dinsert]
      simp [hne, h]
    · simp only [depStep, hl]
      exact ih _ _ h

theorem depFold_snd_mono (today : String) (rs : List Rule)
    (reg : List (String × DeprecationEntry)) (acc : List String) (i : String)
    (h : i ∈ acc) : i ∈ (rs.foldl (depStep today) (reg, acc)).2 := by
  induction rs generalizing reg acc with
  | nil => exact h
  | cons r rest ih =>
    rw [List.foldl_cons]
    rcases hl : dlookup reg r.id with _ | e
    · simp only [depStep, hl]
      exact ih _ _ (List.mem_append_left _ h)
    · simp only [depStep, hl]
      exact ih _ _ h

theorem depFold_snd_not_mem (today : String) (rs : List Rule)
    (reg : List (String × DeprecationEntry)) (acc : List String) (i : String)
    (v : DeprecationEntry) (h : dlookup reg i = some v) (hacc : i ∉ acc) :
    i ∉ (rs.foldl (depStep today) (reg, acc)).2 := by
  induction rs generalizing reg acc with
  | nil => exact hacc
  | cons r rest ih =>
    rw [List.foldl_cons]
    rcases hl : dlookup reg r.id with _ | e
    · simp only [depStep, hl]
      have hne : ¬(r.id = i) := by
        intro he
        rw [he, h] at hl
        exact Option.noConfusion hl
      refine ih _ _ ?_ ?_
      · rw [dlookup_dinsert]
        simp [hne, h]
      · intro hc
        rcases List.mem_append.mp hc with hc | hc
        · exact hacc hc
        · rw [List.mem_singleton] at hc
          exact hne hc.symm
    · simp only [depStep, hl]
      exact ih _ _ h hacc

theorem depFold_all_present (today : String) (rs : List Rule)
    (reg : List (String × DeprecationEntry)) (acc : List String) :
    ∀ r ∈ rs, ∃ v, dlookup (rs.foldl (depStep today) (reg, acc)).1 r.id = some v := by
  induction rs generalizing reg acc with
  | nil =>
    intro r hr
    cases hr
  | cons r₀ rest ih =>
    intro r hr
    rw [List.foldl_cons]
    rcases List.mem_cons.mp hr with he | hmem
    · subst he
      rcases hl : dlookup reg r.id with _ | e
      · simp only [depStep, hl]
        refine ⟨{ rule_name := r.name, deprecation_date := today,
                  stack_version := CurrentStackVersion },
          depFold_fst_pres today rest _ _ _ _ ?_⟩
        rw [dlookup_dinsert]
        simp
      · simp only [depStep, hl]
        exact ⟨e, depFold_fst_pres today rest _ _ _ _ hl⟩
    · rcases hl : dlookup reg r₀.id with _ | e
      · simp only [depStep, hl]
        exact ih _ _ r hmem
      · simp only [depStep, hl]
        exact ih _ _ r hmem

theorem depFold_stable (today : String) (rs : List Rule)
    (reg : List (String × DeprecationEntry)) (acc : List String)
    (h : ∀ r ∈ rs, ∃ v, dlookup reg r.id = some v) :
    rs.foldl (depStep today) (reg, acc) = (reg, acc) := by
  induction rs with
  | nil => rfl
  | cons r rest ih =>
    obtain ⟨v, hv⟩ := h r (List.mem_cons_self _ _)
    rw [List.foldl_cons]
    simp only [depStep, hv]
    exact ih fun x hx => h x (List.mem_cons_of_mem _ hx)

/-- Claim C5: the deprecation registry is append-only: a DeprecationEntry
`{rule_name, deprecation_date, stack_version}` is created only the first
time a rule id is observed as deprecated, and running `manage_versions`
again with the same already-deprecated rule (its entry now in the registry)
neither creates a second entry, changes its deprecation_date, nor reports
the rule as newly-deprecated. -/
theorem deprecation_append_only
    (rules rules₂ deprecated_rules : List Rule)
    (lock lock₂ : List (String × LockEntry))
    (depfile : List (String × DeprecationEntry)) (today today₂ : String)
    (ex ex₂ : Bool) (r : Rule) (hmem : r ∈ deprecated_rules)
    (hids : (deprecated_rules.map Rule.id).Nodup) :
    (dlookup depfile r.id = none →
      dlookup (manage_versions rules deprecated_rules lock depfile today ex).deprecations
          r.id =
        some { rule_name := r.name, deprecation_date := today,
               stack_version := CurrentStackVersion } ∧
      r.id ∈ (manage_versions rules deprecated_rules lock depfile today ex).newly_deprecated) ∧
    (∀ e, dlookup depfile r.id = some e →
      dlookup (manage_versions rules deprecated_rules lock depfile today ex).deprecations
          r.id = some e ∧
      r.id ∉ (manage_versions rules deprecated_rules lock depfile today ex).newly_deprecated) ∧
    (manage_versions rules₂ deprecated_rules lock₂
        (manage_versions rules deprecated_rules lock depfile today ex).deprecations
        today₂ ex₂).deprecations =
      (manage_versions rules deprecated_rules lock depfile today ex).deprecations ∧
    (manage_versions rules₂ deprecated_rules lock₂
        (manage_versions rules deprecated_rules lock depfile today ex).deprecations
        today₂ ex₂).newly_deprecated = [] := by
  have hne : deprecated_rules.isEmpty = false := by
    cases deprecated_rules with
    | nil => cases hmem
    | cons a t => rfl
  have hdep1 : (manage_versions rules deprecated_rules lock depfile today ex).deprecations =
      (deprecated_rules.foldl (depStep today) (depfile, [])).1 := by
    simp [manage_versions_dep_eq, hne]
  have hnew1 : (manage_versions rules deprecated_rules lock depfile today
      ex).newly_deprecated = (deprecated_rules.foldl (depStep today) (depfile, [])).2 := by
    simp [manage_versions_newly_eq, hne]
  refine ⟨?_, ?_, ?_, ?_⟩
  · intro h0
    obtain ⟨pre, post, heq⟩ := List.append_of_mem hmem
    rw [heq] at hids
    obtain ⟨hpre, hpost⟩ := nodup_split_mem hids
    rw [hdep1, hnew1, heq, List.foldl_append, List.foldl_cons]
    have hst : dlookup (pre.foldl (depStep today) (depfile, [])).1 r.id = none := by
      rw [depFold_fst_ne today pre _ _ _ hpre, h0]
    constructor
    · simp only [depStep, hst]
      refine depFold_fst_pres today post _ _ _ _ ?_
      rw [dlookup_dinsert]
      simp
    · simp only [depStep, hst]
      refine depFold_snd_mono today post _ _ _ ?_
      exact List.mem_append_right _ (List.mem_singleton.mpr rfl)
  · intro e he
    rw [hdep1, hnew1]
    exact ⟨depFold_fst_pres today deprecated_rules _ _ _ _ he,
      depFold_snd_not_mem today deprecated_rules _ _ _ _ he (List.not_mem_nil _)⟩
  · have hall := depFold_all_present today deprecated_rules depfile []
    rw [hdep1]
    have h2 : (manage_versions rules₂ deprecated_rules lock₂
        (deprecated_rules.foldl (depStep today) (depfile, [])).1 today₂ ex₂).deprecations =
        (deprecated_rules.foldl (depStep today₂)
          ((deprecated_rules.foldl (depStep today) (depfile, [])).1, [])).1 := by
      simp [manage_versions_dep_eq, hne]
    rw [h2, depFold_stable today₂ deprecated_rules _ [] hall]
  · have hall := depFold_all_present today deprecated_rules depfile []
    rw [hdep1]
    have h2 : (manage_versions rules₂ deprecated_rules lock₂
        (deprecated_rules.foldl (depStep today) (depfile, [])).1 today₂
          ex₂).newly_deprecated =
        (deprecated_rules.foldl (depStep today₂)
          ((deprecated_rules.foldl (depStep today) (depfile, [])).1, [])).2 := by
      simp [manage_versions_newly_eq, hne]
    rw [h2, depFold_stable today₂ deprecated_rules _ [] hall]

/-- Witness for `deprecation_append_only` at a concrete input: reconciling
the sample deprecated rule whose registry entry already exists leaves the
entry (and its 2019 date) untouched and reports nothing newly deprecated. -/
theorem deprecation_append_only_witness :
    dlookup (manage_versions [] [sampleDeprecatedRule] [] sampleDepFile "2020-01-01"
        false).deprecations "d1" =
      some { rule_name := "D", deprecation_date := "2019-05-05", stack_version := "7.10" } ∧
    "d1" ∉ (manage_versions [] [sampleDeprecatedRule] [] sampleDepFile "2020-01-01"
        false).newly_deprecated := by
  have h := deprecation_append_only [] [] [sampleDeprecatedRule] [] [] sampleDepFile
    "2020-01-01" "2020-02-02" false false sampleDeprecatedRule (by decide) (by decide)
  exact h.2.1
    { rule_name := "D", deprecation_date := "2019-05-05", stack_version := "7.10" }
    (by decide)

/-! Lemmas about the `update_and_lock` loop. -/

theorem ualStep_rules (dry_run : Bool) (st : UALState) (r : Rule) :
    (ualStep dry_run st r).rules = st.rules ++ [ualTransform dry_run r] := by
  unfold ualStep ualTransform
  by_cases hc : (substantive_changes (r.changelog.getD [])).isEmpty = true
  · simp [hc]
  · by_cases hd : dry_run = true
    · simp [hc, hd]
    · by_cases hm : r.maturity = "deprecated" <;> simp [hc, hd, hm]

theorem ualStep_saved (dry_run : Bool) (st : UALState) (r : Rule) :
    (ualStep dry_run st r).saved =
      st.saved ++ (if ualSaves dry_run r = true then [r.id] else []) := by
  unfold ualStep ualSaves
  by_cases hc : (substantive_changes (r.changelog.getD [])).isEmpty = true
  · simp [hc]
  · by_cases hd : dry_run = true
    · simp [hc, hd]
    · by_cases hm : r.maturity = "deprecated" <;> simp [hc, hd, hm]

theorem ualFold_rules (dry_run : Bool) (rules : List Rule) (st : UALState) :
    (rules.foldl (ualStep dry_run) st).rules = st.rules ++ rules.map (ualTransform dry_run) := by
  induction rules generalizing st with
  | nil => simp
  | cons r rest ih =>
    rw [List.foldl_cons, ih, ualStep_rules]
    simp

theorem ualFold_saved (dry_run : Bool) (rules : List Rule) (st : UALState) :
    (rules.foldl (ualStep dry_run) st).saved =
      st.saved ++ (rules.filter fun r => ualSaves dry_run r).map Rule.id := by
  induction rules generalizing st with
  | nil => simp
  | cons r rest ih =>
    rw [List.foldl_cons, ih, ualStep_saved]
    by_cases hs : ualSaves dry_run r = true <;> simp [hs, List.filter_cons]

theorem ualTransform_id (dry_run : Bool) (r : Rule) : (ualTransform dry_run r).id = r.id := by
  unfold ualTransform Rule.append_changelog_entry
  by_cases hc : (substantive_changes (r.changelog.getD [])).isEmpty = true
  · by_cases hd : dry_run = true <;> simp [hc, hd]
  · by_cases hd : dry_run = true
    · simp [hc, hd]
    · by_cases hm : r.maturity = "deprecated" <;> simp [hc, hd, hm]

theorem ualTransform_hash (dry_run : Bool) (r : Rule) :
    (ualTransform dry_run r).get_hash = r.get_hash := by
  unfold ualTransform Rule.append_changelog_entry Rule.get_hash
  by_cases hc : (substantive_changes (r.changelog.getD [])).isEmpty = true
  · by_cases hd : dry_run = true <;> simp [hc, hd]
  · by_cases hd : dry_run = true
    · simp [hc, hd]
    · by_cases hm : r.maturity = "deprecated" <;> simp [hc, hd, hm]

theorem ualTransform_changelog_of_changes (r : Rule)
    (hc : (substantive_changes (r.changelog.getD [])).isEmpty = false) :
    (ualTransform false r).changelog =
      if r.maturity = "deprecated" then none
      else some [{ message := "_version_locked_" }] := by
  unfold ualTransform Rule.append_changelog_entry
  by_cases hm : r.maturity = "deprecated" <;> simp [hc, hm]

theorem versions_locked_ualTransform (versions : List (String × LockEntry)) (dry_run : Bool)
    (rules : List Rule) :
    versions_locked versions (rules.map (ualTransform dry_run)) =
      versions_locked versions rules := by
  unfold versions_locked
  induction rules with
  | nil => rfl
  | cons r rest ih =>
    simp only [List.map_cons, List.all_cons, ih]
    congr 1
    rw [ualTransform_id]
    rcases hl : dlookup versions r.id with _ | e
    · rfl
    · rw [ualTransform_hash]

theorem versions_locked_false_of_bad (versions : List (String × LockEntry))
    (rules : List Rule) (r : Rule) (hmem : r ∈ rules)
    (hbad : dlookup versions r.id = none ∨
      ∃ e, dlookup versions r.id = some e ∧ r.get_hash ≠ e.sha256) :
    versions_locked versions rules = false := by
  apply Bool.eq_false_iff.mpr
  intro hall
  unfold versions_locked at hall
  rw [List.all_eq_true] at hall
  have hr := hall r hmem
  rcases hbad with hb | ⟨e, he, hne⟩
  · rw [hb] at hr
    simp at hr
  · rw [he] at hr
    simp only [beq_iff_eq] at hr
    exact hne hr

/-- Claim C4: committing the global changelog (`update_and_lock`,
non-dry-run, default save path) on a rule set in which at least one rule is
absent from the version lock or has a hash differing from its lock entry's
sha256 fails fatally (the `versions_locked` assertion fires) and the global
changelog file is not written. -/
theorem update_and_lock_unlocked_fails
    (versions : List (String × LockEntry))
    (global_changelog : List (String × List ChangelogEntry)) (rules : List Rule)
    (r : Rule) (hmem : r ∈ rules)
    (hbad : dlookup versions r.id = none ∨
      ∃ e, dlookup versions r.id = some e ∧ r.get_hash ≠ e.sha256) :
    (update_and_lock versions global_changelog rules true false).failed = true ∧
    (update_and_lock versions global_changelog rules true false).written = none := by
  have h := versions_locked_false_of_bad versions rules r hmem hbad
  unfold update_and_lock
  simp [ualFold_rules, versions_locked_ualTransform, h]

/-- Witness for `update_and_lock_unlocked_fails` at a concrete input: a rule
absent from the (empty) lock makes the changelog commit fail with nothing
written. -/
theorem update_and_lock_unlocked_fails_witness :
    (update_and_lock [] [] [samplePendingRule] true false).failed = true ∧
    (update_and_lock [] [] [samplePendingRule] true false).written = none :=
  update_and_lock_unlocked_fails [] [] [samplePendingRule] samplePendingRule
    (by decide) (Or.inl (by decide))

/-- Claim C10: in non-dry-run mode `update_and_lock` drains each rule's
local pending changelog and saves the rule file inside the per-rule loop,
before the `versions_locked` precondition is checked: when the precondition
fails on the default save path, the global changelog file is not written,
yet every rule with substantive pending changes has been saved with its
local log replaced by a lone `_version_locked_` sentinel (or emptied when
deprecated); and the precondition is checked only for the default save
path — on a non-default path the write proceeds even though versions are
not locked. -/
theorem update_and_lock_not_atomic
    (versions : List (String × LockEntry))
    (global_changelog : List (String × List ChangelogEntry)) (rules : List Rule)
    (hunlock : versions_locked versions rules = false) :
    ((update_and_lock versions global_changelog rules true false).failed = true ∧
      (update_and_lock versions global_changelog rules true false).written = none) ∧
    (∀ r ∈ rules, (substantive_changes (r.changelog.getD [])).isEmpty = false →
      r.id ∈ (update_and_lock versions global_changelog rules true false).saved ∧
      ualTransform false r ∈ (update_and_lock versions global_changelog rules true false).rules ∧
      (ualTransform false r).changelog =
        (if r.maturity = "deprecated" then none
         else some [{ message := "_version_locked_" }])) ∧
    ((update_and_lock versions global_changelog rules false false).failed = false ∧
      (update_and_lock versions global_changelog rules false false).written =
        some (update_and_lock versions global_changelog rules false false).changelog) := by
  refine ⟨?_, ?_, ?_⟩
  · unfold update_and_lock
    simp [ualFold_rules, versions_locked_ualTransform, hunlock]
  · intro r hr hc
    have hsav : ualSaves false r = true := by
      unfold ualSaves
      simp [hc]
    refine ⟨?_, ?_, ualTransform_changelog_of_changes r hc⟩
    · have hsaved : (update_and_lock versions global_changelog rules true false).saved =
          (rules.filter fun x => ualSaves false x).map Rule.id := by
        unfold update_and_lock
        simp [apply_ite UALResult.saved, ualFold_saved]
      rw [hsaved]
      exact List.mem_map_of_mem _ (List.mem_filter.mpr ⟨hr, hsav⟩)
    · have hrules : (update_and_lock versions global_changelog rules true false).rules =
          rules.map (ualTransform false) := by
        unfold update_and_lock
        simp [apply_ite UALResult.rules, ualFold_rules]
      rw [hrules]
      exact List.mem_map_of_mem _ hr
  · unfold update_and_lock
    simp

/-- Witness for `update_and_lock_not_atomic` at a concrete input: with the
sample pending rule unlocked, the commit fails without writing, but the
rule's file was saved with its pending note drained. -/
theorem update_and_lock_not_atomic_witness :
    ((update_and_lock sampleChangedLock [] [samplePendingRule] true false).failed = true ∧
      (update_and_lock sampleChangedLock [] [samplePendingRule] true false).written = none) ∧
    ("a1" ∈ (update_and_lock sampleChangedLock [] [samplePendingRule] true false).saved ∧
      (ualTransform false samplePendingRule).changelog =
        some [{ message := "_version_locked_" }]) := by
  have h := update_and_lock_not_atomic sampleChangedLock [] [samplePendingRule] (by decide)
  have hb := h.2.1 samplePendingRule (by decide) (by decide)
  exact ⟨h.1, hb.1, by decide⟩

/-! Lemmas about the downgrade chain walk. -/

theorem downgradeWalk_eq_filter (cv : Bool) (role : Option String) (tv : List Nat)
    (schemas : List ApiSchema) :
    ∀ (cur : Option ApiSchema) (p : List (String × String)),
    downgradeWalk cv role tv schemas cur p =
      p.filter fun kv => walkKeep cv tv schemas cur.isSome kv.1 := by
  induction schemas with
  | nil =>
    intro cur p
    simp [downgradeWalk, walkKeep]
  | cons s rest ih =>
    intro cur p
    simp only [downgradeWalk]
    by_cases hcond : parseVersion (if cv then s.versioned else s).stack_version = tv
    · rcases cur with _ | cs
      · simp [walkKeep, hcond]
      · simp [walkKeep, hcond, ApiSchema.downgrade]
    · rcases cur with _ | cs
      · rw [if_neg hcond, ih]
        simp [walkKeep, hcond]
      · rw [if_neg hcond, ih]
        simp [walkKeep, hcond, ApiSchema.downgrade, List.filter_filter, Bool.and_comm]

theorem walkKeep_version (tv : List Nat) (schemas : List ApiSchema) :
    ∀ started, walkKeep true tv schemas started "version" = true := by
  induction schemas with
  | nil =>
    intro started
    rfl
  | cons s rest ih =>
    intro started
    rw [walkKeep]
    by_cases hcond : parseVersion s.versioned.stack_version = tv
    · simp only [if_true, hcond, if_pos]
      cases started <;> simp [ApiSchema.allProps, ApiSchema.versioned]
    · simp only [if_true, hcond, if_neg, ih]
      cases started <;> simp [ApiSchema.allProps, ApiSchema.versioned, ih]

theorem dlookup_filter_fst {α : Type} (l : List (String × α)) (pred : String → Bool)
    (k : String) :
    dlookup (l.filter fun kv => pred kv.1) k = if pred k = true then dlookup l k else none := by
  induction l with
  | nil => simp [dlookup]
  | cons hd tl ih =>
    obtain ⟨k₀, v₀⟩ := hd
    by_cases hp : pred k₀ = true
    · by_cases hk : k₀ = k
      · subst hk
        simp [List.filter_cons, hp, dlookup]
      · simp [List.filter_cons, hp, dlookup, hk, ih]
    · by_cases hk : k₀ = k
      · subst hk
        simp [List.filter_cons, hp, dlookup, ih]
      · simp [List.filter_cons, hp, dlookup, hk, ih]

/-- Claim C7: for every payload and every target_version whose
(major, minor) truncation matches no registered schema in the chain,
`downgrade` raises a fatal error and returns no payload; downgrade to any
registered version succeeds without that error. -/
theorem downgrade_target_check (p : List (String × String)) (t : String) :
    ((downgrade p t).isOk = true ↔
      (parseVersion t).take 2 ∈ all_schemas.map fun schema =>
        parseVersion schema.stack_version) ∧
    (t ∈ available_versions → ∃ q, downgrade p t = Except.ok q) := by
  constructor
  · unfold downgrade
    by_cases hm : (parseVersion t).take 2 ∈ all_schemas.map fun schema =>
        parseVersion schema.stack_version
    · have hc : (all_schemas.map fun schema => parseVersion schema.stack_version).contains
          ((parseVersion t).take 2) = true := List.elem_iff.mpr hm
      rw [if_pos hc]
      simp [Except.isOk, Except.toBool, hm]
    · have hc : ¬((all_schemas.map fun schema => parseVersion schema.stack_version).contains
          ((parseVersion t).take 2) = true) := fun hcc => hm (List.elem_iff.mp hcc)
      rw [if_neg hc]
      simp [Except.isOk, Except.toBool, hm]
  · intro ht
    have hm : (parseVersion t).take 2 ∈ all_schemas.map fun schema =>
        parseVersion schema.stack_version := by
      simp only [available_versions, all_schemas, List.map_cons, List.map_nil,
        List.mem_cons, List.not_mem_nil, or_false] at ht
      rcases ht with h | h | h | h | h | h <;> subst h <;> decide
    have hc : (all_schemas.map fun schema => parseVersion schema.stack_version).contains
        ((parseVersion t).take 2) = true := List.elem_iff.mpr hm
    refine ⟨downgradeWalk ((dlookup p "version").isSome) (dlookup p "type")
      ((parseVersion t).take 2) all_schemas.reverse none p, ?_⟩
    unfold downgrade
    rw [if_pos hc]

/-- Witness for `downgrade_target_check` at a concrete input: downgrading to
the registered version 7.10 succeeds (while the first conjunct also covers
the rejected target 99.99). -/
theorem downgrade_target_check_witness :
    ∃ q, downgrade [("rule_id", "x"), ("type", "query")] "7.10" = Except.ok q :=
  (downgrade_target_check [("rule_id", "x"), ("type", "query")] "7.10").2 (by decide)

/-- Claim C8: downgrade is stable under repetition: for every payload and
every target version, when `downgrade payload target` succeeds with result
`q`, downgrading `q` to the same target yields `q` again — the walk is a
pure function of the payload, the resolved target and the discriminator,
with no hidden state across repeated calls. -/
theorem downgrade_stable (p q : List (String × String)) (t : String)
    (hok : downgrade p t = Except.ok q) : downgrade q t = Except.ok q := by
  unfold downgrade at hok ⊢
  by_cases hc : (all_schemas.map fun schema => parseVersion schema.stack_version).contains
      ((parseVersion t).take 2) = true
  · rw [if_pos hc] at hok
    rw [if_pos hc]
    rw [downgradeWalk_eq_filter] at hok
    injection hok with hq
    subst hq
    rw [downgradeWalk_eq_filter]
    have hcv : (dlookup (p.filter fun kv =>
          walkKeep ((dlookup p "version").isSome) ((parseVersion t).take 2)
            all_schemas.reverse (none : Option ApiSchema).isSome kv.1) "version").isSome =
        (dlookup p "version").isSome := by
      rw [dlookup_filter_fst]
      by_cases hv : (dlookup p "version").isSome = true
      · rw [hv, walkKeep_version]
        simp [hv]
      · have hnone : dlookup p "version" = none := by
          cases ho : dlookup p "version"
          · rfl
          · rw [ho] at hv
            simp at hv
        rw [hnone]
        simp
    rw [hcv, List.filter_filter]
    simp [Bool.and_self]
  · rw [if_neg hc] at hok
    exact Except.noConfusion hok

/-- Witness for `downgrade_stable` at a concrete input: a payload carrying
a field unknown to older schemas downgrades to 7.10 by dropping it, and
downgrading the result again is the identity. -/
theorem downgrade_stable_witness :
    downgrade [("rule_id", "x"), ("type", "query")] "7.10" =
      Except.ok [("rule_id", "x"), ("type", "query")] :=
  downgrade_stable [("rule_id", "x"), ("type", "query"), ("note", "n")]
    [("rule_id", "x"), ("type", "query")] "7.10" (by decide)

/-! Lemmas for the rule loader. -/

theorem checkRule_ok {st : LoadState} {r : Rule} {st' : LoadState}
    (h : checkRule st r = Except.ok st') :
    st'.rules = st.rules ++ [r] ∧ st'.rule_ids = st.rule_ids ++ [r.id] ∧
    st'.rule_names = st.rule_names ++ [r.name] ∧
    r.id ∉ st.rule_ids ∧ r.name ∉ st.rule_names := by
  unfold checkRule at h
  by_cases hid : st.rule_ids.contains r.id = true
  · rw [if_pos hid] at h
    exact Except.noConfusion h
  · rw [if_neg hid] at h
    by_cases hname : st.rule_names.contains r.name = true
    · rw [if_pos hname] at h
      exact Except.noConfusion h
    · rw [if_neg hname] at h
      have hid' : r.id ∉ st.rule_ids := fun hc => hid (List.elem_iff.mpr hc)
      have hname' : r.name ∉ st.rule_names := fun hc => hname (List.elem_iff.mpr hc)
      by_cases hfp : file_pattern (basename r.path) = true
      · rcases hq : r.parsed_query with _ | pq
        · simp only [hq, hfp, Bool.not_true, Bool.false_eq_true, if_false] at h
          injection h with h'
          subst h'
          exact ⟨rfl, rfl, rfl, hid', hname'⟩
        · simp only [hq] at h
          by_cases hdup : st.queries.contains
              (some pq, r.rule_type, r.threshold_field, r.threshold_value) = true
          · rw [if_pos hdup] at h
            exact Except.noConfusion h
          · rw [if_neg hdup] at h
            simp only [hfp, Bool.not_true, Bool.false_eq_true, if_false] at h
            injection h with h'
            subst h'
            exact ⟨rfl, rfl, rfl, hid', hname'⟩
      · have hfp' : file_pattern (basename r.path) = false := by
          cases hv : file_pattern (basename r.path)
          · rfl
          · exact absurd hv hfp
        rcases hq : r.parsed_query with _ | pq
        · simp only [hq, hfp', Bool.not_false, if_true] at h
          exact Except.noConfusion h
        · simp only [hq] at h
          by_cases hdup : st.queries.contains
              (some pq, r.rule_type, r.threshold_field, r.threshold_value) = true
          · rw [if_pos hdup] at h
            exact Except.noConfusion h
          · rw [if_neg hdup] at h
            simp only [hfp', Bool.not_false, if_true] at h
            exact Except.noConfusion h

theorem loadFold_error (error : Bool) (fl : List (String × Rule)) (e : String) :
    fl.foldl (loadStep error) (Except.error e) = Except.error e := by
  induction fl with
  | nil => rfl
  | cons entry rest ih =>
    rw [List.foldl_cons]
    exact ih

theorem loadFold_ok (fl : List (String × Rule)) (st st' : LoadState)
    (h : fl.foldl (loadStep true) (Except.ok st) = Except.ok st')
    (hids : st.rule_ids = st.rules.map Rule.id)
    (hnames : st.rule_names = st.rules.map Rule.name)
    (hnid : st.rule_ids.Nodup) (hnname : st.rule_names.Nodup) :
    st'.rules = st.rules ++ fl.map Prod.snd ∧
    st'.rule_ids = st'.rules.map Rule.id ∧ st'.rule_names = st'.rules.map Rule.name ∧
    st'.rule_ids.Nodup ∧ st'.rule_names.Nodup := by
  induction fl generalizing st with
  | nil =>
    rw [List.foldl_nil] at h
    injection h with h'
    subst h'
    exact ⟨by simp, hids, hnames, hnid, hnname⟩
  | cons entry rest ih =>
    rw [List.foldl_cons] at h
    rcases hcr : checkRule st entry.2 with e | st₁
    · simp only [loadStep, hcr, if_pos] at h
      rw [loadFold_error] at h
      exact Except.noConfusion h
    · simp only [loadStep, hcr] at h
      obtain ⟨hr, hi, hn, hni, hnn⟩ := checkRule_ok hcr
      have hids₁ : st₁.rule_ids = st₁.rules.map Rule.id := by
        rw [hi, hr, hids, List.map_append, List.map_cons, List.map_nil]
      have hnames₁ : st₁.rule_names = st₁.rules.map Rule.name := by
        rw [hn, hr, hnames, List.map_append, List.map_cons, List.map_nil]
      have hnid₁ : st₁.rule_ids.Nodup := by
        rw [hi]
        simp [List.nodup_append, hnid, hni]
      have hnname₁ : st₁.rule_names.Nodup := by
        rw [hn]
        simp [List.nodup_append, hnname, hnn]
      obtain ⟨h1, h2, h3, h4, h5⟩ := ih st₁ h hids₁ hnames₁ hnid₁ hnname₁
      refine ⟨?_, h2, h3, h4, h5⟩
      rw [h1, hr, List.map_cons, List.append_assoc, List.singleton_append]

/-- Claim C9: loading the rule set (fail-fast mode) fails when any two rules
share a `rule_id` or share a `name` — the whole batch is aborted rather than
the duplicate silently skipped — and on success the returned rule set
contains pairwise-distinct ids and names. -/
theorem load_rules_duplicate_identity (fl : List (String × Rule)) :
    (∀ out, load_rules fl true = Except.ok out →
      (fl.map fun entry => entry.2.id).Nodup ∧
      (fl.map fun entry => entry.2.name).Nodup ∧
      (out.map Prod.fst).Nodup ∧ (out.map fun entry => entry.2.name).Nodup) ∧
    (¬((fl.map fun entry => entry.2.id).Nodup ∧
        (fl.map fun entry => entry.2.name).Nodup) →
      (load_rules fl true).isOk = false) := by
  have main : ∀ out, load_rules fl true = Except.ok out →
      (fl.map fun entry => entry.2.id).Nodup ∧
      (fl.map fun entry => entry.2.name).Nodup ∧
      (out.map Prod.fst).Nodup ∧ (out.map fun entry => entry.2.name).Nodup := by
    intro out hout
    unfold load_rules at hout
    rcases hf : fl.foldl (loadStep true) (Except.ok loadInit) with e | st
    · rw [hf] at hout
      exact Except.noConfusion hout
    · rw [hf] at hout
      injection hout with hout'
      obtain ⟨h1, h2, h3, h4, h5⟩ := loadFold_ok fl loadInit st hf rfl rfl
        List.nodup_nil List.nodup_nil
      replace h1 : st.rules = fl.map Prod.snd := h1.trans rfl
      have hperm : (st.rules.insertionSort fun a b => a.name ≤ b.name).Perm st.rules :=
        List.perm_insertionSort _ _
      have hids : ((st.rules.insertionSort fun a b => a.name ≤ b.name).map Rule.id).Nodup :=
        ((hperm.map Rule.id).nodup_iff).mpr (by rw [← h2]; exact h4)
      have hnames : ((st.rules.insertionSort fun a b =>
          a.name ≤ b.name).map Rule.name).Nodup :=
        ((hperm.map Rule.name).nodup_iff).mpr (by rw [← h3]; exact h5)
      have hinid : (fl.map fun entry => entry.2.id).Nodup := by
        have := h4
        rw [h2, h1, List.map_map] at this
        exact this
      have hinname : (fl.map fun entry => entry.2.name).Nodup := by
        have := h5
        rw [h3, h1, List.map_map] at this
        exact this
      refine ⟨hinid, hinname, ?_, ?_⟩
      · rw [← hout']
        simpa [List.map_map, Function.comp] using hids
      · rw [← hout']
        simpa [List.map_map, Function.comp] using hnames
  refine ⟨main, ?_⟩
  intro hdup
  rcases ho : load_rules fl true with e | out
  · rfl
  · exact absurd ⟨(main out ho).1, (main out ho).2.1⟩ hdup

/-- Witness for `load_rules_duplicate_identity` at a concrete input: two
rule files sharing the id `a1` abort the load. -/
theorem load_rules_duplicate_identity_witness :
    (load_rules [("rules/windows/a_rule.toml", sampleChangedRule),
      ("rules/windows/b_rule.toml", { sampleNewRule with id := "a1" })] true).isOk =
      false :=
  (load_rules_duplicate_identity
    [("rules/windows/a_rule.toml", sampleChangedRule),
     ("rules/windows/b_rule.toml", { sampleNewRule with id := "a1" })]).2 (by decide)

end DetectionRules

